import Mathlib

/-!
Verification of the single-image analysis pipeline in
`src/detection/opencv_detector_python_backup.py` (`OpenCVObjectDetector`).

The pipeline is shallowly embedded: pure Python logic becomes Lean
functions; calls into OpenCV (image decoding, colour-space conversion,
Canny/contour/HOG/Hough extraction, the DNN forward pass and
`cv2.dnn.NMSBoxes`) are modelled as parameters or as the extracted data
they return, so every theorem quantifies over what those external calls
may produce.  Machine floats are modelled as exact rationals, images as
integer-valued pixel grids.
-/

/-! ## Data model -/

/-- Bounding box `[x, y, w, h]` in pixel coordinates (top-left origin),
as produced by the detectors in the source. -/
structure Box where
  x : ℤ
  y : ℤ
  w : ℤ
  h : ℤ
deriving DecidableEq

/-- One detection record, mirroring the dict
`{"class": ..., "confidence": ..., "category": ..., "bbox": ...}`
built by every detector in the source (`cls` stands for the `"class"` key,
which is a reserved word in Lean). -/
structure Detection where
  cls : String
  confidence : ℚ
  category : String
  bbox : Box
deriving DecidableEq

/-- The dict returned by `OpenCVObjectDetector.analyze_image`:
`{"isDay", "objects", "details", "summary", "photoPath"}`. -/
structure AnalysisResult where
  isDay : Bool
  objects : List String
  details : List Detection
  summary : String
  photoPath : String
deriving DecidableEq

/-! ## Category lookup (`_categorize_object`, lines 331-349) -/

/-- Python's `str.lower()` restricted to ASCII, which covers every class
name appearing in the source. -/
def str_lower (s : String) : String := String.mk (s.data.map Char.toLower)

/-- The `animals` list in `_categorize_object`. -/
def animals_list : List String :=
  ["bird", "cat", "dog", "horse", "sheep", "cow", "elephant", "bear", "zebra", "giraffe"]

/-- The `vehicles` list in `_categorize_object`. -/
def vehicles_list : List String :=
  ["car", "motorcycle", "bus", "truck", "bicycle", "airplane", "boat"]

/-- The `humans` list in `_categorize_object`. -/
def humans_list : List String := ["person"]

/-- The `machinery` list in `_categorize_object` (overlaps `vehicles`). -/
def machinery_list : List String := ["truck", "bus", "train"]

/-- `OpenCVObjectDetector._categorize_object`: map a class name to a
coarse category, checking the `humans`, `animals`, `machinery` and
`vehicles` lists in that order and defaulting to the lowercased name. -/
def categorize_object (class_name : String) : String :=
  let class_name_lower := str_lower class_name
  if class_name_lower ∈ humans_list then "human"
  else if class_name_lower ∈ animals_list then "animal"
  else if class_name_lower ∈ machinery_list then "machinery"
  else if class_name_lower ∈ vehicles_list then "vehicle"
  else class_name_lower

/-! ## Scene classifier (`_analyze_day_night`, lines 78-96)

The grayscale conversion (`cv2.cvtColor`) is external, so the classifier
is modelled on the grayscale pixel list it produces; `np.mean` becomes an
exact rational mean, the 256-bin histogram split at bin 128 becomes the
two pixel counts the source sums. -/

/-- `OpenCVObjectDetector._analyze_day_night` on the grayscale pixel
values of the image: day iff mean brightness exceeds 80, or mean
brightness exceeds 50 and pixels with value at least 128 outnumber
1.5 times the darker pixels. -/
def analyze_day_night (gray : List ℕ) : Bool :=
  let avg_brightness : ℚ := (gray.sum : ℚ) / (gray.length : ℚ)
  let bright_pixels : ℕ := (gray.filter (fun p => 128 ≤ p)).length
  let dark_pixels : ℕ := (gray.filter (fun p => p < 128)).length
  decide ((80 : ℚ) < avg_brightness) ||
    (decide ((50 : ℚ) < avg_brightness) &&
      decide ((dark_pixels : ℚ) * 1.5 < (bright_pixels : ℚ)))

/-! ## Theorems about the category lookup and the scene classifier -/

/-- C6 counterexample: the claim says every class name outside the four
lists keeps its own name as its category, but the source lowercases the
name first, so the non-listed class name `"TV"` gets category `"tv"`,
not `"TV"`. -/
theorem categorize_object_uppercase_counterexample :
    ("TV" ∉ humans_list ∧ "TV" ∉ animals_list ∧
     "TV" ∉ machinery_list ∧ "TV" ∉ vehicles_list) ∧
    categorize_object "TV" = "tv" ∧ ("tv" : String) ≠ "TV" := by
  refine ⟨by decide, ?_, by decide⟩
  decide

/-- C6 (amended): `_categorize_object` maps `"person"` to `"human"`,
every listed animal class to `"animal"`, the heavy-vehicle classes
(`"truck"`, `"bus"`, `"train"`, overlapping the vehicle list) to
`"machinery"`, the remaining listed vehicle classes to `"vehicle"`, and
every other class name to its lowercased form (so names that are already
lowercase keep their own name). -/
theorem categorize_object_table :
    categorize_object "person" = "human" ∧
    (∀ a ∈ animals_list, categorize_object a = "animal") ∧
    (∀ m ∈ machinery_list, categorize_object m = "machinery") ∧
    (∀ v ∈ vehicles_list, v ∉ machinery_list → categorize_object v = "vehicle") ∧
    (∀ c : String, str_lower c ∉ humans_list → str_lower c ∉ animals_list →
      str_lower c ∉ machinery_list → str_lower c ∉ vehicles_list →
      categorize_object c = str_lower c) := by
  refine ⟨by decide, by decide, by decide, by decide, ?_⟩
  intro c h1 h2 h3 h4
  unfold categorize_object
  simp only [if_neg h1, if_neg h2, if_neg h3, if_neg h4]

/-- Witness for `categorize_object_table`: concrete instances with the
hypotheses discharged (a non-listed lowercase name keeps its name, a
listed animal maps to `"animal"`, a heavy vehicle maps to
`"machinery"`). -/
theorem categorize_object_table_witness :
    categorize_object "tree" = "tree" ∧
    categorize_object "cat" = "animal" ∧
    categorize_object "truck" = "machinery" ∧
    categorize_object "car" = "vehicle" :=
  ⟨categorize_object_table.2.2.2.2 "tree" (by decide) (by decide) (by decide) (by decide),
   categorize_object_table.2.1 "cat" (by decide),
   categorize_object_table.2.2.1 "truck" (by decide),
   categorize_object_table.2.2.2.1 "car" (by decide) (by decide)⟩

/-- C4: the scene classifier is a pure deterministic function whose
day verdict holds exactly when the mean brightness exceeds 80, or the
mean exceeds 50 and the upper-half histogram mass exceeds 1.5 times the
lower-half mass; a uniform image of value 200 is day, a uniform image of
value 10 is night. -/
theorem analyze_day_night_spec :
    (∀ gray : List ℕ, analyze_day_night gray = true ↔
      (80 < (gray.sum : ℚ) / (gray.length : ℚ) ∨
        (50 < (gray.sum : ℚ) / (gray.length : ℚ) ∧
          (((gray.filter (fun p => p < 128)).length : ℚ) * 1.5 <
            ((gray.filter (fun p => 128 ≤ p)).length : ℚ)))) ) ∧
    (∀ g1 g2 : List ℕ, g1 = g2 → analyze_day_night g1 = analyze_day_night g2) ∧
    (∀ n : ℕ, 0 < n →
      analyze_day_night (List.replicate n 200) = true ∧
      analyze_day_night (List.replicate n 10) = false) := by
  have hiff : ∀ gray : List ℕ, analyze_day_night gray = true ↔
      (80 < (gray.sum : ℚ) / (gray.length : ℚ) ∨
        (50 < (gray.sum : ℚ) / (gray.length : ℚ) ∧
          (((gray.filter (fun p => p < 128)).length : ℚ) * 1.5 <
            ((gray.filter (fun p => 128 ≤ p)).length : ℚ)))) := by
    intro gray
    simp [analyze_day_night]
  refine ⟨hiff, fun g1 g2 h => by rw [h], ?_⟩
  intro n hn
  have hne : ((n : ℚ)) ≠ 0 := by exact_mod_cast hn.ne'
  have hmean : ∀ v : ℕ,
      ((List.replicate n v).sum : ℚ) / ((List.replicate n v).length : ℚ) = (v : ℚ) := by
    intro v
    rw [List.sum_replicate, List.length_replicate, smul_eq_mul]
    push_cast
    field_simp
  constructor
  · rw [hiff]
    left
    rw [hmean 200]
    norm_num
  · rw [← Bool.not_eq_true, hiff, hmean 10]
    push_neg
    refine ⟨by norm_num, fun h => absurd h (by norm_num)⟩

/-- Witness for `analyze_day_night_spec`: the determinism conjunct and
the uniform-image conjunct applied at concrete inputs, discharging their
hypotheses. -/
theorem analyze_day_night_spec_witness :
    analyze_day_night [5, 9] = analyze_day_night [5, 9] ∧
    (analyze_day_night (List.replicate 3 200) = true ∧
      analyze_day_night (List.replicate 3 10) = false) :=
  ⟨analyze_day_night_spec.2.1 [5, 9] [5, 9] rfl,
   analyze_day_night_spec.2.2 3 (by norm_num)⟩

/-! ## Heuristic detectors (`_detect_with_opencv_features` helpers)

Feature extraction (HOG windows, Canny edges, contours, the HSV and
grayscale colour conversions, Hough line segments) is performed by
OpenCV; each detector is therefore modelled as a function of the data
those calls return.  Images enter only through their grayscale and
HSV-saturation channel views, which is all the source reads. -/

/-- Pixel-channel views of the input image: dimensions plus the
grayscale channel (`cv2.cvtColor(..., COLOR_BGR2GRAY)`) and the
saturation channel of the HSV view (`cv2.cvtColor(..., COLOR_BGR2HSV)`,
channel 1), both indexed as `row, column`. -/
structure PixelImage where
  width : ℕ
  height : ℕ
  gray : ℕ → ℕ → ℕ
  sat : ℕ → ℕ → ℕ

/-- One external contour as the source consumes it: its
`cv2.contourArea` and its `cv2.boundingRect`. -/
structure Contour where
  area : ℚ
  x : ℕ
  y : ℕ
  w : ℕ
  h : ℕ
deriving DecidableEq

/-- Pixel values of the region `pix[y:y+h, x:x+w]` in row-major order;
NumPy slicing clips the region to the image bounds, which the truncated
`min`/`-` arithmetic reproduces. -/
def roi_list (width height : ℕ) (pix : ℕ → ℕ → ℕ) (x y w h : ℕ) : List ℕ :=
  ((List.range (min h (height - y))).map fun r =>
    (List.range (min w (width - x))).map fun c => pix (y + r) (x + c)).flatten

/-- `OpenCVObjectDetector._has_artificial_colors` on the saturation
values of a region of interest: false on an empty region, otherwise true
iff more than 30% of the pixels have saturation above 100. -/
def has_artificial_colors (sats : List ℕ) : Bool :=
  if sats.length = 0 then false
  else decide ((0.3 : ℚ) < ((sats.filter (fun s => 100 < s)).length : ℚ) / (sats.length : ℚ))

/-- `OpenCVObjectDetector._detect_vehicles_contours` on the contours
extracted from the Canny edge map: keep contours with area above 5000,
aspect ratio strictly between 1.2 and 4.0, width above 100 and height
above 50 whose region passes the artificial-colour test, with confidence
`min(0.7, area/50000)`. -/
def detect_vehicles_contours (img : PixelImage) : List Contour → List Detection
  | [] => []
  | contour :: rest =>
    let tail := detect_vehicles_contours img rest
    if (5000 : ℚ) < contour.area then
      let aspect : ℚ := (contour.w : ℚ) / (contour.h : ℚ)
      if (1.2 : ℚ) < aspect ∧ aspect < (4.0 : ℚ) ∧ 100 < contour.w ∧ 50 < contour.h then
        if has_artificial_colors
            (roi_list img.width img.height img.sat contour.x contour.y contour.w contour.h) then
          { cls := "vehicle"
            confidence := min 0.7 (contour.area / 50000)
            category := "vehicle"
            bbox := ⟨(contour.x : ℤ), (contour.y : ℤ), (contour.w : ℤ), (contour.h : ℤ)⟩ } :: tail
        else tail
      else tail
    else tail

/-- `np.var` of a pixel list as an exact rational (mean of squares minus
squared mean), with the empty case mapped to `0`; the source only
compares the variance against `100`, and NumPy's NaN on an empty slice
also fails that comparison. -/
def np_var (l : List ℕ) : ℚ :=
  if l.length = 0 then 0
  else ((l.map (fun v => (v : ℚ) ^ 2)).sum / (l.length : ℚ)) -
    ((l.map (fun v => (v : ℚ))).sum / (l.length : ℚ)) ^ 2

/-- `OpenCVObjectDetector._detect_animals_texture` on the contours of
the brown-hue mask: keep contours of area strictly between 2000 and
50000 with aspect ratio strictly between 0.5 and 3.0 whose grayscale
region has variance above 100, with confidence
`min(0.6, variance/1000 + area/100000)`. -/
def detect_animals_texture (img : PixelImage) : List Contour → List Detection
  | [] => []
  | contour :: rest =>
    let tail := detect_animals_texture img rest
    if (2000 : ℚ) < contour.area ∧ contour.area < 50000 then
      let aspect : ℚ := (contour.w : ℚ) / (contour.h : ℚ)
      if (0.5 : ℚ) < aspect ∧ aspect < (3.0 : ℚ) then
        let texture_var :=
          np_var (roi_list img.width img.height img.gray contour.x contour.y contour.w contour.h)
        if (100 : ℚ) < texture_var then
          { cls := "animal"
            confidence := min 0.6 (texture_var / 1000 + contour.area / 100000)
            category := "animal"
            bbox := ⟨(contour.x : ℤ), (contour.y : ℤ), (contour.w : ℤ), (contour.h : ℤ)⟩ } :: tail
        else tail
      else tail
    else tail

/-- Loop body of `OpenCVObjectDetector._detect_humans_hog`: walk the HOG
windows with their running index, take `weights[i]` when it exists and
`0.6` otherwise, keep windows with confidence above 0.3 and clamp the
reported confidence to at most 1. -/
def hog_windows (weights : List ℚ) (i : ℕ) : List (ℕ × ℕ × ℕ × ℕ) → List Detection
  | [] => []
  | (x, y, w, h) :: rest =>
    let confidence : ℚ := if i < weights.length then weights.getD i 0 else 0.6
    let tail := hog_windows weights (i + 1) rest
    if (0.3 : ℚ) < confidence then
      { cls := "person"
        confidence := min confidence 1.0
        category := "human"
        bbox := ⟨(x : ℤ), (y : ℤ), (w : ℤ), (h : ℤ)⟩ } :: tail
    else tail

/-- `OpenCVObjectDetector._detect_humans_hog` on the rectangles and
weights returned by `hog.detectMultiScale`. -/
def detect_humans_hog (rects : List (ℕ × ℕ × ℕ × ℕ)) (weights : List ℚ) : List Detection :=
  hog_windows weights 0 rects

/-- One probabilistic Hough line segment `[x1, y1, x2, y2]`. -/
structure LineSeg where
  x1 : ℤ
  y1 : ℤ
  x2 : ℤ
  y2 : ℤ
deriving DecidableEq

/-- Python's `min` over a non-empty integer list (`0` on the empty list,
which the source never reaches). -/
def min_all : List ℤ → ℤ
  | [] => 0
  | x :: xs => xs.foldl min x

/-- Python's `max` over a non-empty integer list (`0` on the empty list,
which the source never reaches). -/
def max_all : List ℤ → ℤ
  | [] => 0
  | x :: xs => xs.foldl max x

/-- `OpenCVObjectDetector._detect_machinery_edges` on the output of
`cv2.HoughLinesP` (`none` when no lines are found): with more than 20
line segments, box the segment endpoints and report one machinery
detection when that box exceeds 100 in both dimensions, with confidence
`min(0.7, lineCount/100)`. -/
def detect_machinery_edges (lines : Option (List LineSeg)) : List Detection :=
  match lines with
  | none => []
  | some ls =>
    if 20 < ls.length then
      let line_regions := ls.map fun l => ((l.x1, l.y1), (l.x2, l.y2))
      if 10 < line_regions.length then
        let all_points := line_regions.flatMap fun p => [p.1, p.2]
        if all_points ≠ [] then
          let xs := all_points.map Prod.fst
          let ys := all_points.map Prod.snd
          let x_min := min_all xs
          let x_max := max_all xs
          let y_min := min_all ys
          let y_max := max_all ys
          let w := x_max - x_min
          let h := y_max - y_min
          if 100 < w ∧ 100 < h then
            [{ cls := "machinery"
               confidence := min 0.7 ((ls.length : ℚ) / 100)
               category := "machinery"
               bbox := ⟨x_min, y_min, w, h⟩ }]
          else []
        else []
      else []
    else []

/-! ## Theorems about the machinery detector (C10) -/

lemma foldl_min_le_init (xs : List ℤ) : ∀ a : ℤ, xs.foldl min a ≤ a := by
  induction xs with
  | nil => intro a; exact le_refl a
  | cons x xs ih =>
    intro a
    exact le_trans (ih (min a x)) (min_le_left a x)

lemma foldl_min_le_mem (xs : List ℤ) : ∀ a x : ℤ, x ∈ xs → xs.foldl min a ≤ x := by
  induction xs with
  | nil => intro a x hx; cases hx
  | cons y ys ih =>
    intro a x hx
    rcases List.mem_cons.mp hx with h | h
    · subst h
      exact le_trans (foldl_min_le_init ys (min a x)) (min_le_right a x)
    · exact ih (min a y) x h

lemma min_all_le {l : List ℤ} {x : ℤ} (hx : x ∈ l) : min_all l ≤ x := by
  cases l with
  | nil => cases hx
  | cons y ys =>
    rcases List.mem_cons.mp hx with h | h
    · subst h
      exact foldl_min_le_init ys x
    · exact foldl_min_le_mem ys y x h

lemma init_le_foldl_max (xs : List ℤ) : ∀ a : ℤ, a ≤ xs.foldl max a := by
  induction xs with
  | nil => intro a; exact le_refl a
  | cons x xs ih =>
    intro a
    exact le_trans (le_max_left a x) (ih (max a x))

lemma mem_le_foldl_max (xs : List ℤ) : ∀ a x : ℤ, x ∈ xs → x ≤ xs.foldl max a := by
  induction xs with
  | nil => intro a x hx; cases hx
  | cons y ys ih =>
    intro a x hx
    rcases List.mem_cons.mp hx with h | h
    · subst h
      exact le_trans (le_max_right a x) (init_le_foldl_max ys (max a x))
    · exact ih (max a y) x h

lemma le_max_all {l : List ℤ} {x : ℤ} (hx : x ∈ l) : x ≤ max_all l := by
  cases l with
  | nil => cases hx
  | cons y ys =>
    rcases List.mem_cons.mp hx with h | h
    · subst h
      exact init_le_foldl_max ys x
    · exact mem_le_foldl_max ys y x h

/-- C10: the machinery detector reports at most one detection, and any
detection it reports has category `"machinery"` and a bounding box
enclosing every endpoint of every extracted line segment. -/
theorem detect_machinery_edges_at_most_one :
    (∀ lines : Option (List LineSeg), (detect_machinery_edges lines).length ≤ 1) ∧
    (∀ (ls : List LineSeg) (d : Detection), d ∈ detect_machinery_edges (some ls) →
      d.category = "machinery" ∧
      ∀ l ∈ ls,
        d.bbox.x ≤ l.x1 ∧ l.x1 ≤ d.bbox.x + d.bbox.w ∧
        d.bbox.y ≤ l.y1 ∧ l.y1 ≤ d.bbox.y + d.bbox.h ∧
        d.bbox.x ≤ l.x2 ∧ l.x2 ≤ d.bbox.x + d.bbox.w ∧
        d.bbox.y ≤ l.y2 ∧ l.y2 ≤ d.bbox.y + d.bbox.h) := by
  constructor
  · intro lines
    rcases lines with _ | ls
    · simp [detect_machinery_edges]
    · unfold detect_machinery_edges
      dsimp only
      repeat' split
      all_goals simp
  · intro ls d hd
    unfold detect_machinery_edges at hd
    dsimp only at hd
    by_cases h20 : 20 < ls.length
    · rw [if_pos h20] at hd
      by_cases h10 : 10 < (ls.map fun l => ((l.x1, l.y1), (l.x2, l.y2))).length
      · rw [if_pos h10] at hd
        set all_points :=
          ((ls.map fun l => ((l.x1, l.y1), (l.x2, l.y2))).flatMap fun p => [p.1, p.2]) with hap
        by_cases hne : all_points ≠ []
        · rw [if_pos hne] at hd
          by_cases hwh :
              100 < max_all (all_points.map Prod.fst) - min_all (all_points.map Prod.fst) ∧
              100 < max_all (all_points.map Prod.snd) - min_all (all_points.map Prod.snd)
          · rw [if_pos hwh] at hd
            rcases List.mem_singleton.mp hd with rfl
            refine ⟨rfl, ?_⟩
            intro l hl
            have hmem1 : (l.x1, l.y1) ∈ all_points := by
              rw [hap]
              refine List.mem_flatMap.mpr ⟨((l.x1, l.y1), (l.x2, l.y2)), ?_, by simp⟩
              exact List.mem_map.mpr ⟨l, hl, rfl⟩
            have hmem2 : (l.x2, l.y2) ∈ all_points := by
              rw [hap]
              refine List.mem_flatMap.mpr ⟨((l.x1, l.y1), (l.x2, l.y2)), ?_, by simp⟩
              exact List.mem_map.mpr ⟨l, hl, rfl⟩
            have hx1 : l.x1 ∈ all_points.map Prod.fst := List.mem_map.mpr ⟨_, hmem1, rfl⟩
            have hy1 : l.y1 ∈ all_points.map Prod.snd := List.mem_map.mpr ⟨_, hmem1, rfl⟩
            have hx2 : l.x2 ∈ all_points.map Prod.fst := List.mem_map.mpr ⟨_, hmem2, rfl⟩
            have hy2 : l.y2 ∈ all_points.map Prod.snd := List.mem_map.mpr ⟨_, hmem2, rfl⟩
            dsimp only
            refine ⟨min_all_le hx1, ?_, min_all_le hy1, ?_, min_all_le hx2, ?_,
              min_all_le hy2, ?_⟩ <;>
              simp only [add_sub_cancel]
            · exact le_max_all hx1
            · exact le_max_all hy1
            · exact le_max_all hx2
            · exact le_max_all hy2
          · rw [if_neg hwh] at hd
            cases hd
        · rw [if_neg hne] at hd
          cases hd
      · rw [if_neg h10] at hd
        cases hd
    · rw [if_neg h20] at hd
      cases hd

/-- A concrete Hough output: 21 identical segments spanning 200 px in
both directions, enough to trigger the machinery rule. -/
def machinery_sample_lines : List LineSeg := List.replicate 21 ⟨0, 0, 200, 200⟩

/-- The machinery detector's output on `machinery_sample_lines`. -/
def machinery_sample_out : List Detection :=
  detect_machinery_edges (some machinery_sample_lines)

set_option maxRecDepth 10000 in
lemma machinery_sample_out_ne_nil : machinery_sample_out ≠ [] := by decide

/-- Witness for `detect_machinery_edges_at_most_one`: the theorem applied
to the concrete 21-segment input. -/
theorem detect_machinery_edges_at_most_one_witness :
    (detect_machinery_edges (some machinery_sample_lines)).length ≤ 1 ∧
    (machinery_sample_out.head machinery_sample_out_ne_nil).category = "machinery" :=
  ⟨detect_machinery_edges_at_most_one.1 (some machinery_sample_lines),
   (detect_machinery_edges_at_most_one.2 machinery_sample_lines
      (machinery_sample_out.head machinery_sample_out_ne_nil)
      (List.head_mem machinery_sample_out_ne_nil)).1⟩

/-! ## Theorems about the vehicle detector (C8) -/

/-- Modelled from the spec (§4.3, vehicle detector): the acceptance rule
stated by the spec — area above 5000 px², aspect ratio strictly between
1.2 and 4.0, width above 100 px, height above 50 px, and a
high-saturation colour profile in the bounded region. Stated separately
from `detect_vehicles_contours` so that the code can be proved to return
exactly the contours this rule accepts. -/
def vehicle_rule (img : PixelImage) (c : Contour) : Bool :=
  decide ((5000 : ℚ) < c.area) &&
  decide ((1.2 : ℚ) < (c.w : ℚ) / (c.h : ℚ)) &&
  decide ((c.w : ℚ) / (c.h : ℚ) < (4.0 : ℚ)) &&
  decide (100 < c.w) && decide (50 < c.h) &&
  has_artificial_colors (roi_list img.width img.height img.sat c.x c.y c.w c.h)

/-- The detection the vehicle detector emits for an accepted contour:
category `"vehicle"`, confidence `min(0.7, area/50000)`, the contour's
bounding rectangle. -/
def vehicle_det_of (c : Contour) : Detection :=
  { cls := "vehicle"
    confidence := min 0.7 (c.area / 50000)
    category := "vehicle"
    bbox := ⟨(c.x : ℤ), (c.y : ℤ), (c.w : ℤ), (c.h : ℤ)⟩ }

/-- A 4×4 fully saturated image (every saturation value 200). -/
def vehicle_sample_img : PixelImage := ⟨4, 4, fun _ _ => 0, fun _ _ => 200⟩

/-- A qualifying contour: area 20000 px², bounding box 200×100. -/
def vehicle_sample_contour : Contour := ⟨20000, 0, 0, 200, 100⟩

/-- Characterisation used by several theorems: the vehicle detector is
the filter of `vehicle_rule` mapped through `vehicle_det_of`. -/
lemma detect_vehicles_contours_eq_filter_map (img : PixelImage) (cs : List Contour) :
    detect_vehicles_contours img cs = (cs.filter (vehicle_rule img)).map vehicle_det_of := by
  induction cs with
  | nil => rfl
  | cons c rest ih =>
    simp only [detect_vehicles_contours, List.filter_cons]
    by_cases h1 : (5000 : ℚ) < c.area
    · by_cases h2 : (1.2 : ℚ) < (c.w : ℚ) / (c.h : ℚ) ∧
          (c.w : ℚ) / (c.h : ℚ) < (4.0 : ℚ) ∧ 100 < c.w ∧ 50 < c.h
      · by_cases h3 : has_artificial_colors
            (roi_list img.width img.height img.sat c.x c.y c.w c.h) = true
        · have hr : vehicle_rule img c = true := by
            simp [vehicle_rule, h1, h2.1, h2.2.1, h2.2.2.1, h2.2.2.2, h3]
          rw [if_pos h1, if_pos h2, if_pos h3, hr, ih]
          simp [vehicle_det_of]
        · have hr : vehicle_rule img c = false := by
            simp [vehicle_rule, h3]
          rw [if_pos h1, if_pos h2, if_neg h3, hr, ih]
          simp
      · have hr : vehicle_rule img c = false := by
          rcases not_and_or.mp h2 with h | h'
          · simp [vehicle_rule, h]
          · rcases not_and_or.mp h' with h | h''
            · simp [vehicle_rule, h]
            · rcases not_and_or.mp h'' with h | h
              · simp [vehicle_rule, h]
              · simp [vehicle_rule, h]
        rw [if_pos h1, if_neg h2, hr, ih]
        simp
    · have hr : vehicle_rule img c = false := by
        simp [vehicle_rule, h1]
      rw [if_neg h1, hr, ih]
      simp

/-- C8: the vehicle detector returns exactly the contours accepted by
the spec's rule, mapped to `"vehicle"` detections with confidence
`min(0.7, area/50000)`; on a concrete qualifying bright rectangle it
yields exactly one vehicle detection with confidence in `(0, 0.7]`. -/
theorem detect_vehicles_contours_exact :
    (∀ (img : PixelImage) (cs : List Contour),
      detect_vehicles_contours img cs = (cs.filter (vehicle_rule img)).map vehicle_det_of) ∧
    (detect_vehicles_contours vehicle_sample_img [vehicle_sample_contour] =
        [vehicle_det_of vehicle_sample_contour] ∧
      (vehicle_det_of vehicle_sample_contour).category = "vehicle" ∧
      0 < (vehicle_det_of vehicle_sample_contour).confidence ∧
      (vehicle_det_of vehicle_sample_contour).confidence ≤ 0.7) := by
  have hsats : roi_list vehicle_sample_img.width vehicle_sample_img.height
      vehicle_sample_img.sat vehicle_sample_contour.x vehicle_sample_contour.y
      vehicle_sample_contour.w vehicle_sample_contour.h = List.replicate 16 200 := by
    decide
  have hart : has_artificial_colors (List.replicate 16 200) = true := by
    have hflen : (((List.replicate 16 (200 : ℕ)).filter (fun s => 100 < s)).length) = 16 := by
      decide
    rw [has_artificial_colors]
    rw [hflen, List.length_replicate]
    norm_num
  have hr : vehicle_rule vehicle_sample_img vehicle_sample_contour = true := by
    rw [vehicle_rule, hsats, hart]
    norm_num [vehicle_sample_contour]
  refine ⟨detect_vehicles_contours_eq_filter_map, ?_, rfl, ?_, ?_⟩
  · rw [detect_vehicles_contours_eq_filter_map, List.filter_cons, hr]
    simp
  · show 0 < min (0.7 : ℚ) ((20000 : ℚ) / 50000)
    norm_num
  · exact min_le_left _ _

/-! ## Primary detector (`_detect_with_yolo`, lines 98-151)

The DNN forward pass is external: the model's raw output layers enter as
data (lists of per-anchor vectors `[cx, cy, w, h, objectness,
score₀, score₁, ...]`, all normalised floats).  `cv2.dnn.NMSBoxes` is an
external call as well and enters as an abstract index-selection
function.  Python's `int()` truncates toward zero, modelled by `tdiv` on
the rational's numerator and denominator. -/

/-- Truncation of a rational toward zero, the behaviour of Python's
`int()` on a float. -/
def int_trunc (q : ℚ) : ℤ := q.num.tdiv (q.den : ℤ)

/-- Index of the first maximal element (`np.argmax`); `0` on the empty
list, which the source never queries because the empty-score case is
filtered out by the confidence threshold. -/
def argmax_idx : List ℚ → ℕ
  | [] => 0
  | [_] => 0
  | x :: y :: rest => if rest.foldl max y ≤ x then 0 else argmax_idx (y :: rest) + 1

/-- One row of the parallel `boxes`/`confidences`/`class_ids` lists the
source accumulates while parsing the raw output. -/
structure YoloCandidate where
  box : Box
  confidence : ℚ
  class_id : ℕ
deriving DecidableEq

/-- Parsing of one raw anchor vector (the body of the detection loop in
`_detect_with_yolo`): scores are the entries from position 5 on, the
class is the argmax, and the candidate is kept only when its confidence
exceeds the threshold, converting the normalised center/size encoding
into absolute pixel coordinates. -/
def parse_yolo_detection (confidence_threshold : ℚ) (width height : ℤ)
    (detection : List ℚ) : Option YoloCandidate :=
  let scores := detection.drop 5
  let class_id := argmax_idx scores
  let confidence := scores.getD class_id 0
  if confidence_threshold < confidence then
    let center_x := int_trunc (detection.getD 0 0 * (width : ℚ))
    let center_y := int_trunc (detection.getD 1 0 * (height : ℚ))
    let w := int_trunc (detection.getD 2 0 * (width : ℚ))
    let h := int_trunc (detection.getD 3 0 * (height : ℚ))
    let x := int_trunc ((center_x : ℚ) - (w : ℚ) / 2)
    let y := int_trunc ((center_y : ℚ) - (h : ℚ) / 2)
    some ⟨⟨x, y, w, h⟩, confidence, class_id⟩
  else none

/-- The final loop of `_detect_with_yolo`: look up each index chosen by
the suppression call in the candidate list and build the detection
records; an out-of-range index is a Python `IndexError`, modelled as an
error value. -/
def build_yolo_detections (classes : List String) (candidates : List YoloCandidate) :
    List ℕ → Except String (List Detection)
  | [] => .ok []
  | i :: rest =>
    match candidates[i]? with
    | none => .error "list index out of range"
    | some cand =>
      let class_name :=
        if cand.class_id < classes.length then classes.getD cand.class_id "unknown"
        else "unknown"
      match build_yolo_detections classes candidates rest with
      | .error e => .error e
      | .ok ds =>
        .ok ({ cls := class_name
               confidence := cand.confidence
               category := categorize_object class_name
               bbox := cand.box } :: ds)

/-- `OpenCVObjectDetector._detect_with_yolo`, parameterised by the class
list, the suppression call (`cv2.dnn.NMSBoxes`, abstract) and the raw
output layers of the network's forward pass. -/
def detect_with_yolo (classes : List String)
    (nms_select : List Box → List ℚ → List ℕ)
    (confidence_threshold : ℚ) (width height : ℤ)
    (outputs : List (List (List ℚ))) : Except String (List Detection) :=
  let candidates :=
    outputs.flatten.filterMap (parse_yolo_detection confidence_threshold width height)
  let boxes := candidates.map (fun c => c.box)
  let confidences := candidates.map (fun c => c.confidence)
  let indices := nms_select boxes confidences
  build_yolo_detections classes candidates indices

/-! ## Confidence bounds (C5) -/

lemma getD_argmax_mem : ∀ (l : List ℚ), l ≠ [] → l.getD (argmax_idx l) 0 ∈ l := by
  intro l
  induction l with
  | nil => simp
  | cons x xs ih =>
    intro _
    cases xs with
    | nil => simp [argmax_idx]
    | cons y rest =>
      rw [show argmax_idx (x :: y :: rest) =
          if rest.foldl max y ≤ x then 0 else argmax_idx (y :: rest) + 1 from rfl]
      split
      · simp
      · have hmem := ih (by simp)
        rw [List.getD_cons_succ]
        exact List.mem_cons_of_mem x hmem

lemma parse_yolo_confidence_mem {thr : ℚ} {width height : ℤ} {det : List ℚ}
    {cand : YoloCandidate} (hthr : 0 ≤ thr)
    (hp : parse_yolo_detection thr width height det = some cand) :
    thr < cand.confidence ∧ cand.confidence ∈ det.drop 5 := by
  unfold parse_yolo_detection at hp
  by_cases hc : thr < (det.drop 5).getD (argmax_idx (det.drop 5)) 0
  · rw [if_pos hc] at hp
    cases hp
    refine ⟨hc, ?_⟩
    rcases eq_or_ne (det.drop 5) [] with hnil | hne
    · rw [hnil] at hc
      simp only [List.getD_nil] at hc
      exact absurd hc (not_lt.mpr hthr)
    · exact getD_argmax_mem _ hne
  · rw [if_neg hc] at hp
    cases hp

lemma build_yolo_detections_confidence {classes : List String}
    {candidates : List YoloCandidate} :
    ∀ {indices : List ℕ} {ds : List Detection},
      build_yolo_detections classes candidates indices = .ok ds →
      ∀ d ∈ ds, ∃ cand ∈ candidates, d.confidence = cand.confidence := by
  intro indices
  induction indices with
  | nil =>
    intro ds h d hd
    simp only [build_yolo_detections] at h
    cases h
    cases hd
  | cons i rest ih =>
    intro ds h d hd
    simp only [build_yolo_detections] at h
    rcases hq : candidates[i]? with _ | cand
    · rw [hq] at h
      cases h
    · rw [hq] at h
      rcases hrest : build_yolo_detections classes candidates rest with e | ds'
      · rw [hrest] at h
        cases h
      · rw [hrest] at h
        cases h
        rcases List.mem_cons.mp hd with rfl | hd'
        · obtain ⟨hi, rfl⟩ := List.getElem?_eq_some.mp hq
          exact ⟨candidates[i], List.getElem_mem hi, rfl⟩
        · exact ih hrest d hd'

lemma hog_windows_confidence (weights : List ℚ) :
    ∀ (rects : List (ℕ × ℕ × ℕ × ℕ)) (i : ℕ), ∀ d ∈ hog_windows weights i rects,
      0 ≤ d.confidence ∧ d.confidence ≤ 1 := by
  intro rects
  induction rects with
  | nil =>
    intro i d hd
    cases hd
  | cons r rest ih =>
    obtain ⟨x, y, w, h⟩ := r
    intro i d hd
    simp only [hog_windows] at hd
    by_cases h3 : (0.3 : ℚ) < (if i < weights.length then weights.getD i 0 else (0.6 : ℚ))
    · rw [if_pos h3] at hd
      rcases List.mem_cons.mp hd with rfl | hd'
      · dsimp only
        exact ⟨le_min (le_of_lt (lt_trans (by norm_num) h3)) (by norm_num),
          le_trans (min_le_right _ _) (by norm_num)⟩
      · exact ih (i + 1) d hd'
    · rw [if_neg h3] at hd
      exact ih (i + 1) d hd

lemma detect_animals_texture_confidence (img : PixelImage) :
    ∀ (cs : List Contour), ∀ d ∈ detect_animals_texture img cs,
      0 ≤ d.confidence ∧ d.confidence ≤ 1 := by
  intro cs
  induction cs with
  | nil =>
    intro d hd
    cases hd
  | cons c rest ih =>
    intro d hd
    simp only [detect_animals_texture] at hd
    by_cases h1 : (2000 : ℚ) < c.area ∧ c.area < 50000
    · rw [if_pos h1] at hd
      by_cases h2 : (0.5 : ℚ) < (c.w : ℚ) / (c.h : ℚ) ∧ (c.w : ℚ) / (c.h : ℚ) < (3.0 : ℚ)
      · rw [if_pos h2] at hd
        by_cases h3 : (100 : ℚ) <
            np_var (roi_list img.width img.height img.gray c.x c.y c.w c.h)
        · rw [if_pos h3] at hd
          rcases List.mem_cons.mp hd with rfl | hd'
          · dsimp only
            constructor
            · refine le_min (by norm_num) (le_of_lt (add_pos ?_ ?_))
              · exact div_pos (lt_trans (by norm_num) h3) (by norm_num)
              · exact div_pos (lt_trans (by norm_num) h1.1) (by norm_num)
            · exact le_trans (min_le_left _ _) (by norm_num)
          · exact ih d hd'
        · rw [if_neg h3] at hd
          exact ih d hd
      · rw [if_neg h2] at hd
        exact ih d hd
    · rw [if_neg h1] at hd
      exact ih d hd

lemma detect_machinery_edges_confidence :
    ∀ (lines : Option (List LineSeg)), ∀ d ∈ detect_machinery_edges lines,
      ∃ n : ℕ, 20 < n ∧ d.confidence = min 0.7 ((n : ℚ) / 100) := by
  intro lines d hd
  rcases lines with _ | ls
  · cases hd
  · unfold detect_machinery_edges at hd
    dsimp only at hd
    by_cases h20 : 20 < ls.length
    · rw [if_pos h20] at hd
      by_cases h10 : 10 < (ls.map fun l => ((l.x1, l.y1), (l.x2, l.y2))).length
      · rw [if_pos h10] at hd
        by_cases hne :
            ((ls.map fun l => ((l.x1, l.y1), (l.x2, l.y2))).flatMap fun p => [p.1, p.2]) ≠ [] 
        · rw [if_pos hne] at hd
          split at hd
          · rcases List.mem_singleton.mp hd with rfl
            exact ⟨ls.length, h20, rfl⟩
          · cases hd
        · rw [if_neg hne] at hd
          cases hd
      · rw [if_neg h10] at hd
        cases hd
    · rw [if_neg h20] at hd
      cases hd

/-- C5: every detection produced by any detector — the primary YOLO path
(given that the network's raw class scores are probabilities in
`[0, 1]`), the HOG human detector, the contour vehicle detector, the
texture animal detector and the edge machinery detector — carries a
confidence in the closed interval `[0, 1]`. -/
theorem detector_confidences_in_unit_interval :
    (∀ (classes : List String) (nms_select : List Box → List ℚ → List ℕ)
        (width height : ℤ) (outputs : List (List (List ℚ))) (ds : List Detection),
      (∀ layer ∈ outputs, ∀ det ∈ layer, ∀ s ∈ det.drop 5, 0 ≤ s ∧ s ≤ 1) →
      detect_with_yolo classes nms_select 0.5 width height outputs = .ok ds →
      ∀ d ∈ ds, 0 ≤ d.confidence ∧ d.confidence ≤ 1) ∧
    (∀ rects weights, ∀ d ∈ detect_humans_hog rects weights,
      0 ≤ d.confidence ∧ d.confidence ≤ 1) ∧
    (∀ (img : PixelImage) (cs : List Contour), ∀ d ∈ detect_vehicles_contours img cs,
      0 ≤ d.confidence ∧ d.confidence ≤ 1) ∧
    (∀ (img : PixelImage) (cs : List Contour), ∀ d ∈ detect_animals_texture img cs,
      0 ≤ d.confidence ∧ d.confidence ≤ 1) ∧
    (∀ lines, ∀ d ∈ detect_machinery_edges lines,
      0 ≤ d.confidence ∧ d.confidence ≤ 1) := by
  refine ⟨?_, ?_, ?_, detect_animals_texture_confidence, ?_⟩
  · intro classes nms_select width height outputs ds hscores hok d hd
    simp only [detect_with_yolo] at hok
    obtain ⟨cand, hcand, hconf⟩ := build_yolo_detections_confidence hok d hd
    obtain ⟨det, hdet, hparse⟩ := List.mem_filterMap.mp hcand
    obtain ⟨layer, hlayer, hdl⟩ := List.mem_flatten.mp hdet
    obtain ⟨hgt, hmem⟩ := parse_yolo_confidence_mem (by norm_num) hparse
    obtain ⟨hs0, hs1⟩ := hscores layer hlayer det hdl cand.confidence hmem
    rw [hconf]
    exact ⟨hs0, hs1⟩
  · intro rects weights d hd
    exact hog_windows_confidence weights rects 0 d hd
  · intro img cs d hd
    rw [detect_vehicles_contours_eq_filter_map] at hd
    obtain ⟨c, hc, rfl⟩ := List.mem_map.mp hd
    have hrule := (List.mem_filter.mp hc).2
    have harea : (5000 : ℚ) < c.area := by
      simp only [vehicle_rule, Bool.and_eq_true, decide_eq_true_eq] at hrule
      exact hrule.1.1.1.1.1
    constructor
    · refine le_min (by norm_num) ?_
      exact le_of_lt (div_pos (lt_trans (by norm_num) harea) (by norm_num))
    · exact le_trans (min_le_left _ _) (by norm_num)
  · intro lines d hd
    obtain ⟨n, hn, hconf⟩ := detect_machinery_edges_confidence lines d hd
    rw [hconf]
    constructor
    · refine le_min (by norm_num) ?_
      positivity
    · exact le_trans (min_le_left _ _) (by norm_num)

/-- The detection the primary detector produces on the concrete sample
raw output below. -/
def yolo_sample_det : Detection := ⟨"person", 0.9, "human", ⟨0, 0, 0, 0⟩⟩

lemma yolo_sample_ok :
    detect_with_yolo ["person"] (fun _ _ => [0]) 0.5 0 0 [[[0, 0, 0, 0, 0, 0.9]]] =
      .ok [yolo_sample_det] := by
  have h09 : (0.5 : ℚ) < 0.9 := by norm_num
  have hcat : categorize_object "person" = "human" := by decide
  simp [detect_with_yolo, parse_yolo_detection, argmax_idx, build_yolo_detections,
    int_trunc, yolo_sample_det, hcat, h09]

/-- Witness for `detector_confidences_in_unit_interval`: the primary
detector conjunct applied to a concrete one-anchor raw output whose
class score is 0.9, discharging both hypotheses. -/
theorem detector_confidences_in_unit_interval_witness :
    0 ≤ yolo_sample_det.confidence ∧ yolo_sample_det.confidence ≤ 1 :=
  detector_confidences_in_unit_interval.1 ["person"] (fun _ _ => [0]) 0 0
    [[[0, 0, 0, 0, 0, 0.9]]] [yolo_sample_det]
    (by
      intro layer hl det hd s hs
      simp only [List.mem_singleton] at hl
      subst hl
      simp only [List.mem_singleton] at hd
      subst hd
      simp at hs
      subst hs
      norm_num)
    yolo_sample_ok yolo_sample_det (List.mem_singleton.mpr rfl)

/-! ## Orchestrator (`analyze_image`, lines 351-403)

The orchestrator composes external calls (image decoding, the colour
conversions, the network forward pass wrapped in `_detect_with_yolo`,
and `_detect_with_opencv_features`, whose leading colour conversions may
raise) with the pure fusion logic.  Those calls enter as an environment
record; any of them may fail, and the model keeps the source's
`try/except` structure with `Except`. -/

/-- External calls made during one `analyze_image` run, over an abstract
image type: `cv2.imread` (returns `None` on a bad path), the grayscale
conversion feeding `_analyze_day_night`, the presence of the loaded
network (`self.net is not None`), `_detect_with_yolo` and
`_detect_with_opencv_features` as the detection lists they deliver or
the exception they raise. -/
structure PipelineEnv (Image : Type) where
  imread : String → Option Image
  to_gray : Image → Except String (List ℕ)
  net_present : Bool
  yolo : Image → Except String (List Detection)
  features : Image → Except String (List Detection)

/-- The duplicate-avoidance loop in `analyze_image` (lines 372-375):
append each OpenCV-feature detection whose category is not already
present among the accumulated detections. -/
def merge_opencv (detections : List Detection) : List Detection → List Detection
  | [] => detections
  | det :: rest =>
    if detections.any (fun d => d.category == det.category) then merge_opencv detections rest
    else merge_opencv (detections ++ [det]) rest

/-- The record constructed at the end of the successful path of
`analyze_image` (lines 377-393): de-duplicated category list with the
`"general scene"` placeholder, the summary line, and the field wiring. -/
def build_result (is_day : Bool) (detections : List Detection) (image_path : String) :
    AnalysisResult :=
  let categories := (detections.map (fun d => d.category)).dedup
  let categories := if categories.isEmpty then ["general scene"] else categories
  let time_of_day := if is_day then "day" else "night"
  let objects_text := String.intercalate ", " categories
  { isDay := is_day
    objects := categories
    details := detections
    summary := "It\x27s " ++ time_of_day ++ " time. The photo includes: " ++ objects_text
    photoPath := image_path }

/-- The body of the `try` block of `analyze_image`: decode, classify
day/night, run the primary detector when the network is present, fall
back to the OpenCV feature detectors when fewer than two detections were
found, and assemble the record; any step's exception propagates. -/
def analyze_body {Image : Type} (env : PipelineEnv Image) (image_path : String) :
    Except String AnalysisResult :=
  match env.imread image_path with
  | none => Except.error ("Could not load image: " ++ image_path)
  | some image =>
    match env.to_gray image with
    | Except.error e => Except.error e
    | Except.ok gray =>
      match (if env.net_present then env.yolo image
             else (Except.ok [] : Except String (List Detection))) with
      | Except.error e => Except.error e
      | Except.ok primary =>
        match (if primary.length < 2 then
                (match env.features image with
                 | Except.error e => Except.error e
                 | Except.ok opencv_detections =>
                   Except.ok (merge_opencv primary opencv_detections))
               else Except.ok primary : Except String (List Detection)) with
        | Except.error e => Except.error e
        | Except.ok detections =>
          Except.ok (build_result (analyze_day_night gray) detections image_path)

/-- `OpenCVObjectDetector.analyze_image`: the `try` body with the
blanket `except` handler that converts any failure into the degraded
record. -/
def analyze_image {Image : Type} (env : PipelineEnv Image) (image_path : String) :
    AnalysisResult :=
  match analyze_body env image_path with
  | .ok result => result
  | .error e =>
    { isDay := true
      objects := ["general scene"]
      details := []
      summary := "Error analyzing image: " ++ e
      photoPath := image_path }

lemma build_result_details (b : Bool) (ds : List Detection) (p : String) :
    (build_result b ds p).details = ds := rfl

lemma build_result_objects (b : Bool) (ds : List Detection) (p : String) :
    (build_result b ds p).objects =
      if ((ds.map (fun d => d.category)).dedup).isEmpty then ["general scene"]
      else (ds.map (fun d => d.category)).dedup := rfl

lemma analyze_body_ok_shape {Image : Type} (env : PipelineEnv Image) (p : String)
    (r : AnalysisResult) (h : analyze_body env p = .ok r) :
    ∃ b ds, r = build_result b ds p := by
  unfold analyze_body at h
  split at h
  · cases h
  · split at h
    · cases h
    · split at h
      · cases h
      · split at h
        · cases h
        · cases h
          exact ⟨_, _, rfl⟩

/-- C1: in every record `analyze_image` returns, `objects` is
`["general scene"]` when `details` is empty, and otherwise is exactly
the non-empty, duplicate-free set of the categories of `details`. -/
theorem analyze_image_categories_consistent {Image : Type} (env : PipelineEnv Image)
    (p : String) :
    ((analyze_image env p).details = [] →
      (analyze_image env p).objects = ["general scene"]) ∧
    ((analyze_image env p).details ≠ [] →
      (analyze_image env p).objects ≠ [] ∧
      (analyze_image env p).objects.Nodup ∧
      ∀ c, c ∈ (analyze_image env p).objects ↔
        c ∈ (analyze_image env p).details.map (fun d => d.category)) := by
  cases hb : analyze_body env p with
  | error e =>
    unfold analyze_image
    rw [hb]
    exact ⟨fun _ => rfl, fun hne => absurd rfl hne⟩
  | ok r =>
    obtain ⟨b, ds, rfl⟩ := analyze_body_ok_shape env p r hb
    unfold analyze_image
    rw [hb]
    simp only [build_result_details, build_result_objects]
    by_cases hds : ds = []
    · subst hds
      simp
    · have hmapne : ds.map (fun d => d.category) ≠ [] := by
        simpa using hds
      obtain ⟨c0, hc0⟩ := List.exists_mem_of_ne_nil _ hmapne
      have hdedup_ne : (ds.map (fun d => d.category)).dedup ≠ [] :=
        List.ne_nil_of_mem (List.mem_dedup.mpr hc0)
      have hempty : ¬ ((ds.map (fun d => d.category)).dedup.isEmpty = true) := by
        rw [List.isEmpty_iff]
        exact hdedup_ne
      rw [if_neg hempty]
      exact ⟨fun h => absurd h hds,
        fun _ => ⟨hdedup_ne, List.nodup_dedup _, fun c => List.mem_dedup⟩⟩

/-- An environment whose image decoding always fails. -/
def fail_env : PipelineEnv Unit :=
  ⟨fun _ => none, fun _ => Except.error "bad", false,
   fun _ => Except.error "bad", fun _ => Except.error "bad"⟩

/-- Witness for `analyze_image_categories_consistent`: on the concrete
failing environment the detection list is empty and the theorem forces
the placeholder category list. -/
theorem analyze_image_categories_consistent_witness :
    (analyze_image fail_env "a.jpg").objects = ["general scene"] :=
  (analyze_image_categories_consistent fail_env "a.jpg").1 rfl

/-- C2: whenever the pipeline body fails with any error, `analyze_image`
returns (instead of propagating) the degraded record — `isDay` true, the
placeholder category list, no detections, a summary carrying the error
text, and the input path unchanged. -/
theorem analyze_image_degraded_on_failure {Image : Type} (env : PipelineEnv Image)
    (p e : String) (h : analyze_body env p = Except.error e) :
    analyze_image env p =
      { isDay := true
        objects := ["general scene"]
        details := []
        summary := "Error analyzing image: " ++ e
        photoPath := p } := by
  unfold analyze_image
  rw [h]

/-- Witness for `analyze_image_degraded_on_failure`: the theorem applied
to the concrete failing environment, whose body fails with the
decode-failure message. -/
theorem analyze_image_degraded_on_failure_witness :
    analyze_image fail_env "p.jpg" =
      { isDay := true
        objects := ["general scene"]
        details := []
        summary := "Error analyzing image: " ++ ("Could not load image: " ++ "p.jpg")
        photoPath := "p.jpg" } :=
  analyze_image_degraded_on_failure fail_env "p.jpg" ("Could not load image: " ++ "p.jpg") rfl

/-- C3: the orchestrator uses the heuristic detector set exactly when
the primary detector found fewer than two detections — with two or more,
the final detections are the primary ones whatever the heuristics would
return; with fewer than two, the final detections are the merge of the
primary list with the heuristic list — and the merge appends a heuristic
detection iff no already-accumulated detection carries its category
(first-seen category wins, later duplicates are dropped). -/
theorem analyze_image_fallback_policy :
    (∀ (Image : Type) (env : PipelineEnv Image) (p : String) (image : Image)
        (gray : List ℕ) (primary : List Detection),
      env.imread p = some image →
      env.to_gray image = Except.ok gray →
      env.net_present = true →
      env.yolo image = Except.ok primary →
      2 ≤ primary.length →
      (analyze_image env p).details = primary) ∧
    (∀ (Image : Type) (env : PipelineEnv Image) (p : String) (image : Image)
        (gray : List ℕ) (primary heuristic : List Detection),
      env.imread p = some image →
      env.to_gray image = Except.ok gray →
      env.net_present = true →
      env.yolo image = Except.ok primary →
      primary.length < 2 →
      env.features image = Except.ok heuristic →
      (analyze_image env p).details = merge_opencv primary heuristic) ∧
    (∀ (base : List Detection) (det : Detection) (rest : List Detection),
      ((∃ d ∈ base, d.category = det.category) →
        merge_opencv base (det :: rest) = merge_opencv base rest) ∧
      ((¬ ∃ d ∈ base, d.category = det.category) →
        merge_opencv base (det :: rest) = merge_opencv (base ++ [det]) rest)) := by
  refine ⟨?_, ?_, ?_⟩
  · intro Image env p image gray primary him hgray hnet hyolo hlen
    unfold analyze_image analyze_body
    simp only [him, hgray, hnet, hyolo, if_true, if_neg (not_lt.mpr hlen),
      build_result_details]
  · intro Image env p image gray primary heuristic him hgray hnet hyolo hlen hfeat
    unfold analyze_image analyze_body
    simp only [him, hgray, hnet, hyolo, if_true, if_pos hlen, hfeat,
      build_result_details]
  · intro base det rest
    constructor
    · intro hex
      have hany : base.any (fun d => d.category == det.category) = true := by
        rw [List.any_eq_true]
        obtain ⟨d, hd, hcat⟩ := hex
        exact ⟨d, hd, by simp [hcat]⟩
      simp only [merge_opencv, hany, if_true]
    · intro hnex
      have hany : ¬ (base.any (fun d => d.category == det.category) = true) := by
        rw [List.any_eq_true]
        rintro ⟨d, hd, hcat⟩
        exact hnex ⟨d, hd, by simpa using hcat⟩
      simp only [merge_opencv, if_neg hany]

/-- A concrete human detection. -/
def det_human : Detection := ⟨"person", 1/2, "human", ⟨0, 0, 1, 1⟩⟩

/-- A second human detection with a different box and confidence. -/
def det_human2 : Detection := ⟨"person", 3/4, "human", ⟨1, 1, 2, 2⟩⟩

/-- A concrete vehicle detection. -/
def det_vehicle : Detection := ⟨"car", 1/2, "vehicle", ⟨0, 0, 1, 1⟩⟩

/-- An environment whose primary detector returns two detections. -/
def env_two_primary : PipelineEnv Unit :=
  ⟨fun _ => some (), fun _ => Except.ok [200], true,
   fun _ => Except.ok [det_human, det_vehicle], fun _ => Except.error "heuristics"⟩

/-- An environment whose primary detector returns one detection and
whose heuristic set returns one detection of a fresh category. -/
def env_one_primary : PipelineEnv Unit :=
  ⟨fun _ => some (), fun _ => Except.ok [200], true,
   fun _ => Except.ok [det_human], fun _ => Except.ok [det_vehicle]⟩

/-- Witness for `analyze_image_fallback_policy`: all three parts applied
at concrete inputs — a 2-detection primary run ignores the (erroring)
heuristics, a 1-detection primary run merges in the heuristic list, a
duplicate category is dropped and a fresh category appended. -/
theorem analyze_image_fallback_policy_witness :
    (analyze_image env_two_primary "p.jpg").details = [det_human, det_vehicle] ∧
    (analyze_image env_one_primary "p.jpg").details = merge_opencv [det_human] [det_vehicle] ∧
    merge_opencv [det_human] (det_human2 :: []) = merge_opencv [det_human] [] ∧
    merge_opencv [det_human] (det_vehicle :: []) = merge_opencv ([det_human] ++ [det_vehicle]) [] :=
  ⟨analyze_image_fallback_policy.1 Unit env_two_primary "p.jpg" () [200]
      [det_human, det_vehicle] rfl rfl rfl rfl (by norm_num),
   analyze_image_fallback_policy.2.1 Unit env_one_primary "p.jpg" () [200]
      [det_human] [det_vehicle] rfl rfl rfl rfl (by norm_num) rfl,
   (analyze_image_fallback_policy.2.2 [det_human] det_human2 []).1
      ⟨det_human, List.mem_singleton.mpr rfl, rfl⟩,
   (analyze_image_fallback_policy.2.2 [det_human] det_vehicle []).2
      (by
        rintro ⟨d, hd, hcat⟩
        rw [List.mem_singleton] at hd
        subst hd
        exact absurd hcat (by decide))⟩

/-! ## Detector initialisation (`_initialize_detector`, lines 29-76)

The filesystem and the two OpenCV calls (`readNetFromDarknet` and the
class-file read) are external and enter as parameters; the `try/except`
wrapper that downgrades any failure to an absent network is kept as an
`Except` computation with a catch-all. -/

/-- A loaded Darknet network, remembered by the files it was read
from. -/
structure NetHandle where
  config : String
  weights : String
deriving DecidableEq

/-- The hard-coded COCO class list used when `coco.names` is absent. -/
def coco_default_classes : List String :=
  ["person", "bicycle", "car", "motorcycle", "airplane", "bus", "train", "truck",
   "boat", "traffic light", "fire hydrant", "stop sign", "parking meter", "bench",
   "bird", "cat", "dog", "horse", "sheep", "cow", "elephant", "bear", "zebra", "giraffe",
   "backpack", "umbrella", "handbag", "tie", "suitcase", "frisbee", "skis", "snowboard",
   "sports ball", "kite", "baseball bat", "baseball glove", "skateboard", "surfboard",
   "tennis racket", "bottle", "wine glass", "cup", "fork", "knife", "spoon", "bowl",
   "banana", "apple", "sandwich", "orange", "broccoli", "carrot", "hot dog", "pizza",
   "donut", "cake", "chair", "couch", "potted plant", "bed", "dining table", "toilet",
   "tv", "laptop", "mouse", "remote", "keyboard", "cell phone", "microwave", "oven",
   "toaster", "sink", "refrigerator", "book", "clock", "vase", "scissors", "teddy bear",
   "hair drier", "toothbrush"]

/-- `OpenCVObjectDetector._initialize_detector`, parameterised by the
filesystem (`os.path.exists`), the network loader
(`cv2.dnn.readNetFromDarknet`, called as `(config, weights)`) and the
class-file reader; returns the resulting `(net, classes)` state.  The
primary weight/config pair is replaced by the tiny pair when the primary
weights file is missing; the network is loaded only when both chosen
files exist; any raised error is caught, leaving the network absent and
the class list in its initial empty state. -/
def initialize_detector (path_exists : String → Bool)
    (read_net : String → String → Except String NetHandle)
    (read_classes : String → Except String (List String)) :
    Option NetHandle × List String :=
  let attempt : Except String (Option NetHandle × List String) :=
    let pair :=
      if !path_exists "/opt/yolo/yolov3.weights" then
        ("/opt/yolo/yolov3-tiny.weights", "/opt/yolo/yolov3-tiny.cfg")
      else ("/opt/yolo/yolov3.weights", "/opt/yolo/yolov3.cfg")
    match (if path_exists pair.1 && path_exists pair.2
           then (read_net pair.2 pair.1).map some
           else (Except.ok none : Except String (Option NetHandle))) with
    | Except.error e => Except.error e
    | Except.ok net =>
      match (if path_exists "/opt/yolo/coco.names"
             then read_classes "/opt/yolo/coco.names"
             else (Except.ok coco_default_classes : Except String (List String))) with
      | Except.error e => Except.error e
      | Except.ok classes => Except.ok (net, classes)
  match attempt with
  | Except.ok r => r
  | Except.error _ => (none, [])

/-- C9: model loading attempts the primary pair when the primary
weights exist and loads it on success; it falls back to the tiny pair
when the primary weights are missing and loads that on success; when
neither pair is fully present the handle is absent; and a loader
failure is swallowed, leaving the handle absent instead of raising. -/
theorem initialize_detector_fallback_chain :
    (∀ (path_exists : String → Bool) (read_net : String → String → Except String NetHandle)
        (read_classes : String → Except String (List String)) (n : NetHandle),
      path_exists "/opt/yolo/yolov3.weights" = true →
      path_exists "/opt/yolo/yolov3.cfg" = true →
      read_net "/opt/yolo/yolov3.cfg" "/opt/yolo/yolov3.weights" = Except.ok n →
      (path_exists "/opt/yolo/coco.names" = false ∨
        ∃ cl, read_classes "/opt/yolo/coco.names" = Except.ok cl) →
      (initialize_detector path_exists read_net read_classes).1 = some n) ∧
    (∀ (path_exists : String → Bool) (read_net : String → String → Except String NetHandle)
        (read_classes : String → Except String (List String)) (n : NetHandle),
      path_exists "/opt/yolo/yolov3.weights" = false →
      path_exists "/opt/yolo/yolov3-tiny.weights" = true →
      path_exists "/opt/yolo/yolov3-tiny.cfg" = true →
      read_net "/opt/yolo/yolov3-tiny.cfg" "/opt/yolo/yolov3-tiny.weights" = Except.ok n →
      (path_exists "/opt/yolo/coco.names" = false ∨
        ∃ cl, read_classes "/opt/yolo/coco.names" = Except.ok cl) →
      (initialize_detector path_exists read_net read_classes).1 = some n) ∧
    (∀ (path_exists : String → Bool) (read_net : String → String → Except String NetHandle)
        (read_classes : String → Except String (List String)),
      ¬ (path_exists "/opt/yolo/yolov3.weights" = true ∧
          path_exists "/opt/yolo/yolov3.cfg" = true) →
      ¬ (path_exists "/opt/yolo/yolov3-tiny.weights" = true ∧
          path_exists "/opt/yolo/yolov3-tiny.cfg" = true) →
      (initialize_detector path_exists read_net read_classes).1 = none) ∧
    (∀ (path_exists : String → Bool) (read_net : String → String → Except String NetHandle)
        (read_classes : String → Except String (List String)) (e : String),
      path_exists "/opt/yolo/yolov3.weights" = true →
      path_exists "/opt/yolo/yolov3.cfg" = true →
      read_net "/opt/yolo/yolov3.cfg" "/opt/yolo/yolov3.weights" = Except.error e →
      initialize_detector path_exists read_net read_classes = (none, [])) := by
  refine ⟨?_, ?_, ?_, ?_⟩
  · intro pe rn rc n hw hc hn hcl
    unfold initialize_detector
    simp only [hw, Bool.not_true, Bool.false_eq_true, if_false, hc, Bool.and_self, if_true, hn,
      Except.map]
    rcases hcl with hcl | ⟨cl, hcl⟩
    · simp only [hcl, Bool.false_eq_true, if_false]
    · simp only [hcl]
      cases hcn : pe "/opt/yolo/coco.names" with
      | true => simp only [hcn, if_true]
      | false => simp only [hcn, Bool.false_eq_true, if_false]
  · intro pe rn rc n hw htw htc hn hcl
    unfold initialize_detector
    simp only [hw, Bool.not_false, if_true, htw, htc, Bool.and_self, hn, Except.map]
    rcases hcl with hcl | ⟨cl, hcl⟩
    · simp only [hcl, Bool.false_eq_true, if_false]
    · simp only [hcl]
      cases hcn : pe "/opt/yolo/coco.names" with
      | true => simp only [hcn, if_true]
      | false => simp only [hcn, Bool.false_eq_true, if_false]
  · intro pe rn rc hp ht
    unfold initialize_detector
    have hfinish : ∀ net_if : Except String (Option NetHandle),
        net_if = Except.ok none →
        (match (match net_if with
                | Except.error e => (Except.error e : Except String (Option NetHandle × List String))
                | Except.ok net =>
                  match (if pe "/opt/yolo/coco.names"
                         then rc "/opt/yolo/coco.names"
                         else (Except.ok coco_default_classes : Except String (List String))) with
                  | Except.error e => Except.error e
                  | Except.ok classes => Except.ok (net, classes)) with
         | Except.ok r => r
         | Except.error _ => ((none, []) : Option NetHandle × List String)).1 = none := by
      intro net_if hni
      subst hni
      cases hcn : pe "/opt/yolo/coco.names" with
      | true =>
        cases hres : rc "/opt/yolo/coco.names" with
        | error e => simp only [hcn, if_true, hres]
        | ok cl => simp only [hcn, if_true, hres]
      | false => simp only [hcn, Bool.false_eq_true, if_false]
    cases hw : pe "/opt/yolo/yolov3.weights" with
    | true =>
      have hc : pe "/opt/yolo/yolov3.cfg" = false := by
        cases hcv : pe "/opt/yolo/yolov3.cfg" with
        | true => exact absurd ⟨hw, hcv⟩ hp
        | false => rfl
      simp only [hw, Bool.not_true, Bool.false_eq_true, if_false, hc, Bool.and_false]
      exact hfinish _ rfl
    | false =>
      have ht2 : pe "/opt/yolo/yolov3-tiny.weights" = false ∨
          pe "/opt/yolo/yolov3-tiny.cfg" = false := by
        cases htw : pe "/opt/yolo/yolov3-tiny.weights" with
        | true =>
          cases htc : pe "/opt/yolo/yolov3-tiny.cfg" with
          | true => exact absurd ⟨htw, htc⟩ ht
          | false => exact Or.inr rfl
        | false => exact Or.inl rfl
      simp only [hw, Bool.not_false, if_true]
      rcases ht2 with h | h
      · simp only [h, Bool.false_and, Bool.false_eq_true, if_false]
        exact hfinish _ rfl
      · simp only [h, Bool.and_false, Bool.false_eq_true, if_false]
        exact hfinish _ rfl
  · intro pe rn rc e hw hc hn
    unfold initialize_detector
    simp only [hw, Bool.not_true, Bool.false_eq_true, if_false, hc, Bool.and_self, if_true, hn,
      Except.map]

/-- A filesystem on which exactly the tiny pair exists. -/
def tiny_only_fs : String → Bool :=
  fun s => s == "/opt/yolo/yolov3-tiny.weights" || s == "/opt/yolo/yolov3-tiny.cfg"

/-- Witness for `initialize_detector_fallback_chain`: the fallback
conjunct applied on the filesystem holding only the tiny pair with an
always-succeeding loader. -/
theorem initialize_detector_fallback_chain_witness :
    (initialize_detector tiny_only_fs (fun c w => Except.ok ⟨c, w⟩)
        (fun _ => Except.error "unread")).1 =
      some ⟨"/opt/yolo/yolov3-tiny.cfg", "/opt/yolo/yolov3-tiny.weights"⟩ :=
  initialize_detector_fallback_chain.2.1 tiny_only_fs (fun c w => Except.ok ⟨c, w⟩)
    (fun _ => Except.error "unread") ⟨"/opt/yolo/yolov3-tiny.cfg", "/opt/yolo/yolov3-tiny.weights"⟩
    rfl rfl rfl rfl (Or.inl rfl)

/-! ## Non-maximum suppression (C7)

The suppression step of the primary detector is performed by
`cv2.dnn.NMSBoxes` (line 138), whose algorithm is not part of this
repository; the definitions below are modelled from the spec's
description (§4.2): sort candidates by confidence descending, repeatedly
accept the highest-confidence remaining box, and discard any unaccepted
box whose intersection-over-union with it exceeds the overlap
threshold, ties broken by original (stable) order. -/

/-- Modelled from the spec: overlap length of two segments
`[a1, a1+l1)` and `[a2, a2+l2)`. -/
def inter_len (a1 l1 a2 l2 : ℤ) : ℤ := max 0 (min (a1 + l1) (a2 + l2) - max a1 a2)

/-- Modelled from the spec: intersection area of two boxes. -/
def inter_area (b1 b2 : Box) : ℤ :=
  inter_len b1.x b1.w b2.x b2.w * inter_len b1.y b1.h b2.y b2.h

/-- Modelled from the spec: combined (union) area of two boxes. -/
def union_area (b1 b2 : Box) : ℤ :=
  b1.w * b1.h + b2.w * b2.h - inter_area b1 b2

/-- Modelled from the spec (glossary): intersection-over-union, the
overlap metric of the suppression step. -/
def iou (b1 b2 : Box) : ℚ := (inter_area b1 b2 : ℚ) / (union_area b1 b2 : ℚ)

/-- A candidate box with its confidence, the unit the suppression step
works on. -/
structure ScoredBox where
  box : Box
  conf : ℚ
deriving DecidableEq

/-- Confidence-descending comparison used to sort candidates. -/
def conf_ge (a b : ScoredBox) : Prop := b.conf ≤ a.conf

instance conf_ge_decidable : DecidableRel conf_ge :=
  fun a b => inferInstanceAs (Decidable (b.conf ≤ a.conf))

instance conf_ge_total : IsTotal ScoredBox conf_ge :=
  ⟨fun a b => le_total b.conf a.conf⟩

instance conf_ge_trans : IsTrans ScoredBox conf_ge :=
  ⟨fun _ _ _ h1 h2 => le_trans h2 h1⟩

/-- Modelled from the spec: the greedy pass — accept the first (highest
confidence) remaining candidate and drop every later candidate
overlapping it beyond the threshold. -/
def nms_greedy (t : ℚ) : List ScoredBox → List ScoredBox
  | [] => []
  | b :: rest => b :: nms_greedy t (rest.filter fun c => decide (iou b.box c.box ≤ t))
termination_by l => l.length
decreasing_by
  simp only [List.length_cons]
  exact Nat.lt_succ_of_le (List.length_filter_le _ _)

/-- Modelled from the spec: the whole suppression step — stable sort by
confidence descending, then the greedy pass. -/
def nms (t : ℚ) (l : List ScoredBox) : List ScoredBox :=
  nms_greedy t (l.insertionSort conf_ge)

lemma nms_greedy_cons (t : ℚ) (b : ScoredBox) (rest : List ScoredBox) :
    nms_greedy t (b :: rest) =
      b :: nms_greedy t (rest.filter fun c => decide (iou b.box c.box ≤ t)) := by
  rw [nms_greedy]

lemma nms_greedy_sublist (t : ℚ) :
    ∀ (n : ℕ) (l : List ScoredBox), l.length ≤ n → List.Sublist (nms_greedy t l) l := by
  intro n
  induction n with
  | zero =>
    intro l hl
    have : l = [] := List.length_eq_zero.mp (Nat.le_zero.mp hl)
    subst this
    simp [nms_greedy]
  | succ n ih =>
    intro l hl
    cases l with
    | nil => simp [nms_greedy]
    | cons b rest =>
      rw [nms_greedy_cons]
      refine List.Sublist.cons₂ b ?_
      have hlen : (rest.filter fun c => decide (iou b.box c.box ≤ t)).length ≤ n :=
        le_trans (List.length_filter_le _ _) (Nat.succ_le_succ_iff.mp hl)
      exact (ih _ hlen).trans (List.filter_sublist _)

lemma nms_greedy_pairwise (t : ℚ) :
    ∀ (n : ℕ) (l : List ScoredBox), l.length ≤ n →
      (nms_greedy t l).Pairwise (fun a b => iou a.box b.box ≤ t) := by
  intro n
  induction n with
  | zero =>
    intro l hl
    have : l = [] := List.length_eq_zero.mp (Nat.le_zero.mp hl)
    subst this
    simp [nms_greedy]
  | succ n ih =>
    intro l hl
    cases l with
    | nil => simp [nms_greedy]
    | cons b rest =>
      rw [nms_greedy_cons]
      have hlen : (rest.filter fun c => decide (iou b.box c.box ≤ t)).length ≤ n :=
        le_trans (List.length_filter_le _ _) (Nat.succ_le_succ_iff.mp hl)
      refine List.Pairwise.cons ?_ (ih _ hlen)
      intro c hc
      have hcf : c ∈ rest.filter fun c => decide (iou b.box c.box ≤ t) :=
        (nms_greedy_sublist t n _ hlen).subset hc
      exact of_decide_eq_true (List.mem_filter.mp hcf).2

lemma nms_greedy_of_pairwise (t : ℚ) :
    ∀ (n : ℕ) (l : List ScoredBox), l.length ≤ n →
      l.Pairwise (fun a b => iou a.box b.box ≤ t) → nms_greedy t l = l := by
  intro n
  induction n with
  | zero =>
    intro l hl _
    have : l = [] := List.length_eq_zero.mp (Nat.le_zero.mp hl)
    subst this
    simp [nms_greedy]
  | succ n ih =>
    intro l hl hp
    cases l with
    | nil => simp [nms_greedy]
    | cons b rest =>
      obtain ⟨hb, hrest⟩ := List.pairwise_cons.mp hp
      have hfil : rest.filter (fun c => decide (iou b.box c.box ≤ t)) = rest :=
        List.filter_eq_self.mpr fun c hc => decide_eq_true (hb c hc)
      rw [nms_greedy_cons, hfil, ih rest (Nat.succ_le_succ_iff.mp hl) hrest]

lemma nms_greedy_sorted (t : ℚ) :
    ∀ (n : ℕ) (l : List ScoredBox), l.length ≤ n →
      l.Sorted conf_ge → (nms_greedy t l).Sorted conf_ge := by
  intro n
  induction n with
  | zero =>
    intro l hl _
    have : l = [] := List.length_eq_zero.mp (Nat.le_zero.mp hl)
    subst this
    simp [nms_greedy]
  | succ n ih =>
    intro l hl hs
    cases l with
    | nil => simp [nms_greedy]
    | cons b rest =>
      obtain ⟨hb, hrest⟩ := List.pairwise_cons.mp hs
      rw [nms_greedy_cons]
      have hlen : (rest.filter fun c => decide (iou b.box c.box ≤ t)).length ≤ n :=
        le_trans (List.length_filter_le _ _) (Nat.succ_le_succ_iff.mp hl)
      refine List.Pairwise.cons ?_ (ih _ hlen (hrest.sublist (List.filter_sublist _)))
      intro c hc
      have hcf : c ∈ rest.filter fun c => decide (iou b.box c.box ≤ t) :=
        (nms_greedy_sublist t n _ hlen).subset hc
      exact hb c ((List.filter_sublist _).subset hcf)

lemma inter_len_comm (a1 l1 a2 l2 : ℤ) : inter_len a1 l1 a2 l2 = inter_len a2 l2 a1 l1 := by
  rw [inter_len, inter_len, min_comm (a1 + l1), max_comm a1]

lemma inter_area_comm (b1 b2 : Box) : inter_area b1 b2 = inter_area b2 b1 := by
  rw [inter_area, inter_area, inter_len_comm b1.x, inter_len_comm b1.y]

lemma union_area_comm (b1 b2 : Box) : union_area b1 b2 = union_area b2 b1 := by
  rw [union_area, union_area, inter_area_comm b1, add_comm (b1.w * b1.h)]

/-- C7: the suppression step at the source's overlap threshold 0.4 is
idempotent — re-running it on its own output returns that output
unchanged — no two boxes it returns overlap with IoU above the
threshold, and IoU is symmetric so the pairwise statement covers both
orders of every pair. -/
theorem nms_idempotent :
    (∀ l : List ScoredBox, nms 0.4 (nms 0.4 l) = nms 0.4 l) ∧
    (∀ l : List ScoredBox,
      (nms 0.4 l).Pairwise (fun a b => iou a.box b.box ≤ 0.4)) ∧
    (∀ b1 b2 : Box, iou b1 b2 = iou b2 b1) := by
  have hpair : ∀ (t : ℚ) (l : List ScoredBox),
      (nms t l).Pairwise (fun a b => iou a.box b.box ≤ t) := by
    intro t l
    exact nms_greedy_pairwise t (l.insertionSort conf_ge).length _ le_rfl
  have hsorted : ∀ (t : ℚ) (l : List ScoredBox), (nms t l).Sorted conf_ge := by
    intro t l
    exact nms_greedy_sorted t (l.insertionSort conf_ge).length _ le_rfl
      (List.sorted_insertionSort conf_ge l)
  refine ⟨?_, hpair 0.4, ?_⟩
  · intro l
    show nms_greedy 0.4 ((nms 0.4 l).insertionSort conf_ge) = nms 0.4 l
    rw [List.Sorted.insertionSort_eq (hsorted 0.4 l)]
    exact nms_greedy_of_pairwise 0.4 (nms 0.4 l).length _ le_rfl (hpair 0.4 l)
  · intro b1 b2
    rw [iou, iou, inter_area_comm b1, union_area_comm b1]
